import Mathlib

/-!
A verification development for the public server interface of an embeddable
OPC UA server (header `ua_server.h`).  The header declares the operations; the
behaviour of each operation is modelled from the natural-language
specification that accompanies the repository.  Machine integers are modelled
by `Nat`; 128-bit GUIDs by `Nat`; callbacks by opaque handles where their code
is never invoked by the modelled operations.
-/

set_option autoImplicit false

namespace UAServer

/-- Status codes used by the modelled operations.  The spec names the error
kinds abstractly (IdExists, ParentNotFound, ...); we use open62541-style
constructor names. -/
inductive UA_StatusCode where
  | good
  | badNodeIdExists
  | badParentNodeIdInvalid
  | badReferenceTypeIdInvalid
  | badTypeDefinitionInvalid
  | badNodeIdUnknown
  | badNodeClassInvalid
  | badNotWritable
  | badNotSupported
  | badTypeMismatch
  | badSourceNodeIdInvalid
  | badDuplicateReference
  | badIntervalTooSmall
  deriving DecidableEq, Repr

/-- The identifier variant of a NodeId: numeric (32-bit), string, 128-bit
UUID, or opaque byte string. -/
inductive UA_NodeIdIdentifier where
  | numeric (n : Nat)
  | stringId (s : String)
  | guid (g : Nat)
  | byteString (b : List Nat)
  deriving DecidableEq, Repr

/-- NodeId: (namespaceIndex : 16-bit, identifier). -/
structure UA_NodeId where
  namespaceIndex : Nat
  identifier : UA_NodeIdIdentifier
  deriving DecidableEq, Repr

/-- The null node id (`UA_NODEID_NULL`): namespace 0, numeric 0. -/
def UA_NODEID_NULL : UA_NodeId := ⟨0, .numeric 0⟩

def UA_NodeId.isNull (n : UA_NodeId) : Bool := decide (n = UA_NODEID_NULL)

/-- QualifiedName: (namespaceIndex, textual name). -/
structure UA_QualifiedName where
  namespaceIndex : Nat
  name : String
  deriving DecidableEq, Repr

/-- The eight node classes. -/
inductive UA_NodeClass where
  | Variable
  | VariableType
  | Object
  | ObjectType
  | View
  | ReferenceType
  | DataType
  | Method
  deriving DecidableEq, Repr

/-- Variant: a dynamically-typed value container.  A small but representative
set of payloads; structural equality is Lean equality. -/
inductive UA_Variant where
  | empty
  | boolean (b : Bool)
  | int32 (v : Int)
  | stringVal (s : String)
  | int32Array (vs : List Int)
  deriving DecidableEq, Repr

/-- Value source of a variable node: exactly one of an inline variant owned by
the node or an external data source (whose callbacks are opaque to the model
and are represented by a handle). -/
inductive UA_ValueSource where
  | inline (value : UA_Variant)
  | dataSource (handle : Nat)
  deriving DecidableEq, Repr

/-- A reference stored on its source node: (referenceTypeId, targetId,
isForward). -/
structure UA_ReferenceNode where
  referenceTypeId : UA_NodeId
  targetId : UA_NodeId
  isForward : Bool
  deriving DecidableEq, Repr

/-- Attribute ids, as in the typed attribute accessors of the header. -/
inductive UA_AttributeId where
  | nodeId
  | nodeClass
  | browseName
  | displayName
  | description
  | writeMask
  | userWriteMask
  | isAbstract
  | symmetric
  | inverseName
  | containsNoLoops
  | eventNotifier
  | value
  | dataType
  | valueRank
  | arrayDimensions
  | accessLevel
  | userAccessLevel
  | minimumSamplingInterval
  | historizing
  | executable
  | userExecutable
  deriving DecidableEq, Repr

/-- A typed attribute payload handed to the generic attribute setter (the
`type`/`value` pair of `__UA_Server_setNodeAttribute`). -/
inductive UA_AttributeValue where
  | qualifiedName (q : UA_QualifiedName)
  | localizedText (t : String)
  | boolean (b : Bool)
  | byte (b : Nat)
  | uint32 (n : Nat)
  | doubleVal (x : Int)
  | variant (v : UA_Variant)
  deriving DecidableEq, Repr

/-- A node: the common header of every node class plus the class-specific
payload, flattened (fields irrelevant to a class keep their defaults). -/
structure UA_Node where
  nodeId : UA_NodeId
  nodeClass : UA_NodeClass
  browseName : UA_QualifiedName
  displayName : String
  description : String
  writeMask : Nat
  userWriteMask : Nat
  references : List UA_ReferenceNode
  valueSource : UA_ValueSource
  valueCallback : Option Nat
  isAbstract : Bool
  symmetric : Bool
  inverseName : String
  containsNoLoops : Bool
  eventNotifier : Nat
  executable : Bool
  historizing : Bool
  accessLevel : Nat
  userAccessLevel : Nat
  minimumSamplingInterval : Int
  typeDefinition : UA_NodeId
  deriving DecidableEq, Repr

/-- A freshly created node with default class-specific payload. -/
def mkNode (nid : UA_NodeId) (cls : UA_NodeClass) (bn : UA_QualifiedName)
    (td : UA_NodeId) : UA_Node :=
  { nodeId := nid, nodeClass := cls, browseName := bn, displayName := "",
    description := "", writeMask := 0, userWriteMask := 0, references := [],
    valueSource := .inline .empty, valueCallback := none, isAbstract := false,
    symmetric := false, inverseName := "", containsNoLoops := false,
    eventNotifier := 0, executable := false, historizing := false,
    accessLevel := 0, userAccessLevel := 0, minimumSamplingInterval := 0,
    typeDefinition := td }

/-- A job: tagged variant over the units of work the server dispatches. -/
inductive UA_Job where
  | detachConnection (connectionId : Nat)
  | decodedRequest (channelId : Nat) (requestId : Nat)
  | delayedMethodCall (methodId : Nat)
  | binaryMessage (channelId : Nat) (message : List Nat)
  deriving DecidableEq, Repr

/-- A repeated-job record: (id : GUID, interval in ms, next fire instant in
ms, the job). -/
structure UA_RepeatedJob where
  id : Nat
  interval : Nat
  nextFire : Nat
  job : UA_Job
  deriving DecidableEq, Repr

/-- The server state visible to the modelled operations: the local node store,
the namespace table, the repeated-job schedule (sorted by next fire instant),
the pending asynchronous removals, and the GUID source. -/
structure UA_Server where
  nodes : List UA_Node
  namespaces : List String
  repeated : List UA_RepeatedJob
  pendingRemovals : List Nat
  guidCounter : Nat
  deriving DecidableEq, Repr

/-- Node lookup by id (first match). -/
def findIn : List UA_Node → UA_NodeId → Option UA_Node
  | [], _ => none
  | n :: ns, nid => if n.nodeId = nid then some n else findIn ns nid

/-- Update the node(s) with the given id in place, keeping positions. -/
def updateNode : List UA_Node → UA_NodeId → (UA_Node → UA_Node) → List UA_Node
  | [], _, _ => []
  | n :: ns, nid, f => (if n.nodeId = nid then f n else n) :: updateNode ns nid f

/-- Largest numeric identifier in use in the given namespace. -/
def maxNumericIn : List UA_Node → Nat → Nat
  | [], _ => 0
  | n :: ns, nsIdx =>
    match n.nodeId.identifier with
    | .numeric k =>
        if n.nodeId.namespaceIndex = nsIdx then max k (maxNumericIn ns nsIdx)
        else maxNumericIn ns nsIdx
    | _ => maxNumericIn ns nsIdx

/-- A fresh numeric node id in the given namespace: one past the largest
numeric identifier in use there (never the null id). -/
def freshNumericId (nodes : List UA_Node) (nsIdx : Nat) : UA_NodeId :=
  ⟨nsIdx, .numeric (maxNumericIn nodes nsIdx + 1)⟩

/-- Well-formedness of a server store: no stored node carries the null id, and
node ids are pairwise distinct. -/
def UA_Server.wf (s : UA_Server) : Prop :=
  (∀ n ∈ s.nodes, n.nodeId.isNull = false) ∧ (s.nodes.map (·.nodeId)).Nodup

instance (s : UA_Server) : Decidable s.wf := by
  unfold UA_Server.wf; infer_instance

/-- The reference type id names an existing ReferenceType node. -/
def validRefType (s : UA_Server) (rid : UA_NodeId) : Bool :=
  match findIn s.nodes rid with
  | some n => n.nodeClass = .ReferenceType
  | none => false

/-- The type definition is absent (null) or names an existing node. -/
def validTypeDef (s : UA_Server) (td : UA_NodeId) : Bool :=
  td.isNull || (findIn s.nodes td).isSome

/-- Modelled from the spec: the node-store `addNode` contract behind the
declared `__UA_Server_addNode` (whose implementation is not part of the
sources).  Fails with ParentNotFound when the parent does not exist, with
ReferenceTypeInvalid / TypeDefinitionInvalid as applicable, and with IdExists
when the requested id is taken; if the requested id is the null id or its
namespace slot is free, a fresh numeric id in the requested namespace is
assigned, the node is inserted, and exactly one outgoing reference
(parent → new node, with the given reference type) is created. -/
def __UA_Server_addNode (s : UA_Server) (nodeClass : UA_NodeClass)
    (requestedNewNodeId parentNodeId referenceTypeId : UA_NodeId)
    (browseName : UA_QualifiedName) (typeDefinition : UA_NodeId) :
    UA_StatusCode × Option UA_NodeId × UA_Server :=
  match findIn s.nodes parentNodeId with
  | none => (.badParentNodeIdInvalid, none, s)
  | some _ =>
    if !validRefType s referenceTypeId then (.badReferenceTypeIdInvalid, none, s)
    else if !validTypeDef s typeDefinition then (.badTypeDefinitionInvalid, none, s)
    else if !requestedNewNodeId.isNull && (findIn s.nodes requestedNewNodeId).isSome then
      (.badNodeIdExists, none, s)
    else
      let newId := freshNumericId s.nodes requestedNewNodeId.namespaceIndex
      let newNode := mkNode newId nodeClass browseName typeDefinition
      let parentRef : UA_ReferenceNode := ⟨referenceTypeId, newId, true⟩
      let nodes2 :=
        updateNode s.nodes parentNodeId
          (fun n => { n with references := n.references ++ [parentRef] }) ++ [newNode]
      (.good, some newId, { s with nodes := nodes2 })

/-- Modelled from the spec: `UA_Server_addReference(sourceId, refTypeId,
targetId, isForward)` appends the reference to the source node; it fails with
SourceNotFound when the source does not exist and with DuplicateReference when
the same reference is already stored. -/
def UA_Server_addReference (s : UA_Server) (sourceId refTypeId targetId : UA_NodeId)
    (isForward : Bool) : UA_StatusCode × UA_Server :=
  match findIn s.nodes sourceId with
  | none => (.badSourceNodeIdInvalid, s)
  | some src =>
    let newRef : UA_ReferenceNode := ⟨refTypeId, targetId, isForward⟩
    if newRef ∈ src.references then (.badDuplicateReference, s)
    else
      let nodes2 :=
        updateNode s.nodes sourceId (fun n => { n with references := n.references ++ [newRef] })
      (.good, { s with nodes := nodes2 })

/-- Modelled from the spec: `UA_Server_forEachChildNodeCall` iterates the
outgoing references of the parent in insertion order, invoking the callback
with (childId, isInverse, referenceTypeId); we expose the sequence of callback
invocations as a list.  Returns `none` (an error status) when the parent does
not exist. -/
def UA_Server_forEachChildNodeCall (s : UA_Server) (parentNodeId : UA_NodeId) :
    Option (List (UA_NodeId × Bool × UA_NodeId)) :=
  (findIn s.nodes parentNodeId).map
    (fun n => n.references.map (fun r => (r.targetId, !r.isForward, r.referenceTypeId)))

/-- Modelled from the spec: inverse traversal "may be computed by scanning" —
the references observable at `targetId` from the other direction, each record
being (sourceId, isInverse from the target's point of view, referenceTypeId).
A stored forward reference s → t is seen at t as an inverse record. -/
def UA_Server_forEachInverseReference (s : UA_Server) (targetId : UA_NodeId) :
    List (UA_NodeId × Bool × UA_NodeId) :=
  s.nodes.flatMap (fun n =>
    n.references.filterMap (fun r =>
      if r.targetId = targetId then some (n.nodeId, r.isForward, r.referenceTypeId)
      else none))

/-- Modelled from the spec and the header's "Set Node Attributes" comment: the
generic attribute setter behind `__UA_Server_setNodeAttribute`.  NodeId,
NodeClass and Symmetric are structurally immutable (NotWritable); WriteMask,
UserWriteMask, AccessLevel, UserAccessLevel, UserExecutable and Historizing
are unmanaged (NotSupported); DataType, ValueRank and ArrayDimensions are
taken from the value variant and are not independently settable; the
remaining attributes are written when the payload type matches. -/
def __UA_Server_setNodeAttribute (s : UA_Server) (nid : UA_NodeId)
    (attributeId : UA_AttributeId) (v : UA_AttributeValue) :
    UA_StatusCode × UA_Server :=
  match findIn s.nodes nid with
  | none => (.badNodeIdUnknown, s)
  | some _ =>
    let write (f : UA_Node → UA_Node) : UA_StatusCode × UA_Server :=
      (.good, { s with nodes := updateNode s.nodes nid f })
    match attributeId, v with
    | .nodeId, _ => (.badNotWritable, s)
    | .nodeClass, _ => (.badNotWritable, s)
    | .symmetric, _ => (.badNotWritable, s)
    | .writeMask, _ => (.badNotSupported, s)
    | .userWriteMask, _ => (.badNotSupported, s)
    | .accessLevel, _ => (.badNotSupported, s)
    | .userAccessLevel, _ => (.badNotSupported, s)
    | .userExecutable, _ => (.badNotSupported, s)
    | .historizing, _ => (.badNotSupported, s)
    | .dataType, _ => (.badNotWritable, s)
    | .valueRank, _ => (.badNotWritable, s)
    | .arrayDimensions, _ => (.badNotWritable, s)
    | .browseName, .qualifiedName q => write (fun n => { n with browseName := q })
    | .displayName, .localizedText t => write (fun n => { n with displayName := t })
    | .description, .localizedText t => write (fun n => { n with description := t })
    | .isAbstract, .boolean b => write (fun n => { n with isAbstract := b })
    | .inverseName, .localizedText t => write (fun n => { n with inverseName := t })
    | .containsNoLoops, .boolean b => write (fun n => { n with containsNoLoops := b })
    | .eventNotifier, .byte b => write (fun n => { n with eventNotifier := b })
    | .minimumSamplingInterval, .doubleVal x =>
        write (fun n => { n with minimumSamplingInterval := x })
    | .value, .variant vv => write (fun n => { n with valueSource := .inline vv })
    | .executable, .boolean b => write (fun n => { n with executable := b })
    | _, _ => (.badTypeMismatch, s)

/-- Modelled from the spec: `UA_Server_setNodeAttribute_value` sets the value
source of a Variable / VariableType node to an inline variant (the dedicated
transition `setValueSource_inline`, releasing any prior source). -/
def UA_Server_setNodeAttribute_value (s : UA_Server) (nid : UA_NodeId)
    (value : UA_Variant) : UA_StatusCode × UA_Server :=
  match findIn s.nodes nid with
  | none => (.badNodeIdUnknown, s)
  | some n =>
    if n.nodeClass = .Variable ∨ n.nodeClass = .VariableType then
      let nodes2 := updateNode s.nodes nid (fun m => { m with valueSource := .inline value })
      (.good, { s with nodes := nodes2 })
    else (.badNodeClassInvalid, s)

/-- Modelled from the spec: `UA_Server_getNodeAttribute_value` reads the value
attribute of a Variable / VariableType node.  An inline variant is returned
directly; a data-source read happens outside the pure model (`none`). -/
def UA_Server_getNodeAttribute_value (s : UA_Server) (nid : UA_NodeId) :
    UA_StatusCode × Option UA_Variant :=
  match findIn s.nodes nid with
  | none => (.badNodeIdUnknown, none)
  | some n =>
    if n.nodeClass = .Variable ∨ n.nodeClass = .VariableType then
      match n.valueSource with
      | .inline v => (.good, some v)
      | .dataSource _ => (.good, none)
    else (.badNodeClassInvalid, none)

/-- Modelled from the spec and the header comment "Succeeds only if the node
contains a variant value": `UA_Server_setNodeAttribute_value_callback`
attaches a value callback to a Variable / VariableType node whose value
source is an inline variant; otherwise it fails and leaves the node
unchanged. -/
def UA_Server_setNodeAttribute_value_callback (s : UA_Server) (nid : UA_NodeId)
    (callbackHandle : Nat) : UA_StatusCode × UA_Server :=
  match findIn s.nodes nid with
  | none => (.badNodeIdUnknown, s)
  | some n =>
    if n.nodeClass = .Variable ∨ n.nodeClass = .VariableType then
      match n.valueSource with
      | .inline _ =>
          let nodes2 :=
            updateNode s.nodes nid (fun m => { m with valueCallback := some callbackHandle })
          (.good, { s with nodes := nodes2 })
      | .dataSource _ => (.badNodeClassInvalid, s)
    else (.badNodeClassInvalid, s)

/-- Insert a repeated-job record into the schedule sorted by next fire
instant, a record with an equal instant going after the existing ones (stable
insertion, so that records sharing an instant keep insertion order). -/
def insertRepeated (r : UA_RepeatedJob) : List UA_RepeatedJob → List UA_RepeatedJob
  | [] => [r]
  | x :: xs => if r.nextFire < x.nextFire then r :: x :: xs else x :: insertRepeated r xs

/-- Modelled from the spec: `UA_Server_addRepeatedJob(job, interval)` —
intervals strictly greater than 5 ms are accepted, others fail with
IntervalTooSmall; a fresh GUID is assigned and the first fire instant is
now() + interval (hence at most now() + interval).  `now` is the ambient
clock value at the call. -/
def UA_Server_addRepeatedJob (s : UA_Server) (job : UA_Job) (interval : Nat)
    (now : Nat) : UA_StatusCode × Option Nat × UA_Server :=
  if interval ≤ 5 then (.badIntervalTooSmall, none, s)
  else
    let g := s.guidCounter
    let record : UA_RepeatedJob := ⟨g, interval, now + interval, job⟩
    (.good, some g,
      { s with repeated := insertRepeated record s.repeated, guidCounter := g + 1 })

/-- Modelled from the spec: `UA_Server_removeRepeatedJob(jobId)` only enqueues
the id into a pending-change list; the record is removed asynchronously during
the next iteration of the main loop. -/
def UA_Server_removeRepeatedJob (s : UA_Server) (jobId : Nat) :
    UA_StatusCode × UA_Server :=
  (.good, { s with pendingRemovals := s.pendingRemovals ++ [jobId] })

/-- The fire-discipline advance of one due record: normally the next fire
instant moves forward by the interval (drift-free); if the loop stalled past a
whole further interval, the instant is re-based to now() + interval. -/
def advanceFire (now : Nat) (r : UA_RepeatedJob) : UA_RepeatedJob :=
  if r.nextFire + r.interval ≤ now then { r with nextFire := now + r.interval }
  else { r with nextFire := r.nextFire + r.interval }

/-- Modelled from the spec: step 1 of a main-loop iteration.  Every record
with nextFire ≤ now fires exactly once (in list order, hence in insertion
order for records sharing an instant); the due records are advanced and
re-inserted into the schedule.  Returns (fired records in fire order, new
schedule). -/
def processTimed (now : Nat) (recs : List UA_RepeatedJob) :
    List UA_RepeatedJob × List UA_RepeatedJob :=
  let due := recs.filter (fun r => r.nextFire ≤ now)
  let rest := recs.filter (fun r => ¬ r.nextFire ≤ now)
  (due, (due.map (advanceFire now)).foldl (fun acc r => insertRepeated r acc) rest)

/-- Modelled from the spec: step 4 of a main-loop iteration — apply the
deferred repeated-job removals. -/
def applyPendingRemovals (s : UA_Server) : UA_Server :=
  { s with repeated := s.repeated.filter (fun r => ¬ r.id ∈ s.pendingRemovals),
           pendingRemovals := [] }

/-- Modelled from the spec: the repeated-job part of one main-loop iteration
(`UA_Server_run_mainloop`): fire the due records (step 1), then apply the
deferred removals (step 4).  The network-layer steps do not touch the
schedule and are omitted.  Returns (fired records, new server state). -/
def mainloopIterationTimed (now : Nat) (s : UA_Server) :
    List UA_RepeatedJob × UA_Server :=
  let p := processTimed now s.repeated
  (p.1, applyPendingRemovals { s with repeated := p.2 })

/-- A data value returned by the read service: a status and a variant. -/
structure UA_DataValue where
  status : UA_StatusCode
  value : UA_Variant
  deriving DecidableEq, Repr

/-- The ordered indices of the items whose node id lies in the given
namespace — the index selector handed to an external node store. -/
def indicesFor (items : List UA_NodeId) (ns : Nat) : List Nat :=
  (List.range items.length).filter (fun i =>
    match items.get? i with
    | some it => it.namespaceIndex = ns
    | none => false)

/-- The slice of the request an external node store receives for its
namespace: the items selected by `indicesFor`, in request order. -/
def sliceOf (items : List UA_NodeId) (ns : Nat) : List UA_NodeId :=
  (indicesFor items ns).filterMap (items.get? ·)

/-- Modelled from the spec: dispatch of one external slice.  The handler
(modelled by its per-item behaviour) fills the pre-allocated result array at
exactly the selected indices; all other positions are left untouched. -/
def dispatchSlice (h : UA_NodeId → UA_DataValue) (items : List UA_NodeId)
    (indices : List Nat) (results : List (Option UA_DataValue)) :
    List (Option UA_DataValue) :=
  indices.foldl (fun acc i =>
    match items.get? i with
    | some it => acc.set i (some (h it))
    | none => acc) results

/-- The distinct namespaces of the request that are bound to an external node
store, in order of first occurrence. -/
def externalNamespacesOf (ens : Nat → Option (UA_NodeId → UA_DataValue))
    (items : List UA_NodeId) : List Nat :=
  ((items.map (·.namespaceIndex)).dedup).filter (fun ns => (ens ns).isSome)

/-- The local read of one item against the server's own node store. -/
def localRead (s : UA_Server) (nid : UA_NodeId) : UA_DataValue :=
  match UA_Server_getNodeAttribute_value s nid with
  | (.good, some v) => ⟨.good, v⟩
  | (.good, none) => ⟨.good, .empty⟩
  | (st, _) => ⟨st, .empty⟩

/-- Dispatch every external namespace slice in turn, merging the filled
positions into the shared result array. -/
def mergeExternal (ens : Nat → Option (UA_NodeId → UA_DataValue))
    (items : List UA_NodeId) :
    List Nat → List (Option UA_DataValue) → List (Option UA_DataValue)
  | [], res => res
  | ns :: rest, res =>
    match ens ns with
    | some h => mergeExternal ens items rest (dispatchSlice h items (indicesFor items ns) res)
    | none => mergeExternal ens items rest res

/-- Modelled from the spec: the service-layer glue for a batched read over
namespaces possibly bound to external node stores (`UA_ExternalNodeStore` /
`UA_Server_addExternalNamespace`).  The runtime partitions the items by
namespace, dispatches each external slice with the ordered index selector,
handles the local items itself, and merges everything back at the original
positions. -/
def readService (ens : Nat → Option (UA_NodeId → UA_DataValue)) (s : UA_Server)
    (items : List UA_NodeId) : List (Option UA_DataValue) :=
  let init := items.map (fun it =>
    if (ens it.namespaceIndex).isSome then none else some (localRead s it))
  mergeExternal ens items (externalNamespacesOf ens items) init

/-- The C-level out-parameter types used by the typed attribute getters of the
header. -/
inductive UA_CTypeKind where
  | Boolean
  | Byte
  | UInt32
  | Int32
  | Double
  | NodeIdType
  | NodeClassType
  | QualifiedNameType
  | LocalizedTextType
  | VariantType
  deriving DecidableEq, Repr

/-- From the source (`ua_server.h`, declaration of
`UA_Server_getNodeAttribute_historizing`): the out parameter through which the
Historizing attribute is exposed is typed `UA_Double`. -/
def UA_Server_getNodeAttribute_historizing_outType : UA_CTypeKind := .Double

/-- From the source: the out-parameter type of
`UA_Server_getNodeAttribute_executable` (`UA_Boolean`), for contrast. -/
def UA_Server_getNodeAttribute_executable_outType : UA_CTypeKind := .Boolean

/-! Concrete fixtures: a small server used to instantiate the theorems. -/

/-- The Objects folder node of the fixture store. -/
def rootNode : UA_Node := mkNode ⟨0, .numeric 84⟩ .Object ⟨0, "Objects"⟩ UA_NODEID_NULL

/-- The Organizes reference-type node of the fixture store. -/
def organizesNode : UA_Node :=
  mkNode ⟨0, .numeric 35⟩ .ReferenceType ⟨0, "Organizes"⟩ UA_NODEID_NULL

/-- A variable node of the fixture store holding an inline Int32 42. -/
def varNode : UA_Node :=
  { mkNode ⟨1, .numeric 100⟩ .Variable ⟨1, "v"⟩ UA_NODEID_NULL with
    valueSource := .inline (.int32 42) }

/-- A variable node of the fixture store backed by a data source. -/
def dsNode : UA_Node :=
  { mkNode ⟨1, .numeric 101⟩ .Variable ⟨1, "d"⟩ UA_NODEID_NULL with
    valueSource := .dataSource 7 }

/-- The fixture server. -/
def srv0 : UA_Server :=
  { nodes := [rootNode, organizesNode, varNode, dsNode],
    namespaces := ["http://opcfoundation.org/UA/", "urn:app"],
    repeated := [], pendingRemovals := [], guidCounter := 0 }

/-- A fixture server whose schedule holds two records sharing the instant
20 ms, inserted with GUIDs 0 then 1. -/
def srvSched : UA_Server :=
  { srv0 with
    repeated := [⟨0, 10, 20, .decodedRequest 1 1⟩, ⟨1, 20, 20, .decodedRequest 2 2⟩],
    guidCounter := 2 }

/-- The read batch of the external-namespace scenario:
[ns=0;i=2256, ns=2;i=1, ns=2;i=2, ns=0;i=2257]. -/
def items0 : List UA_NodeId :=
  [⟨0, .numeric 2256⟩, ⟨2, .numeric 1⟩, ⟨2, .numeric 2⟩, ⟨0, .numeric 2257⟩]

/-- The mock external node store of the scenario, as a per-item behaviour. -/
def ensHandler0 (nid : UA_NodeId) : UA_DataValue :=
  match nid.identifier with
  | .numeric k => ⟨.good, .int32 (Int.ofNat k + 1000)⟩
  | _ => ⟨.badNodeIdUnknown, .empty⟩

/-- The namespace binding of the scenario: namespace 2 is external, the rest
are local. -/
def ensMap0 (ns : Nat) : Option (UA_NodeId → UA_DataValue) :=
  if ns = 2 then some ensHandler0 else none

/-! Helper lemmas about the store primitives. -/

theorem findIn_eq_some {nodes : List UA_Node} {nid : UA_NodeId} {p : UA_Node}
    (h : findIn nodes nid = some p) : p ∈ nodes ∧ p.nodeId = nid := by
  induction nodes with
  | nil => simp [findIn] at h
  | cons n ns ih =>
    by_cases hn : n.nodeId = nid
    · simp only [findIn, if_pos hn] at h
      cases h
      exact ⟨List.mem_cons_self _ _, hn⟩
    · simp only [findIn, if_neg hn] at h
      obtain ⟨hmem, hid⟩ := ih h
      exact ⟨List.mem_cons_of_mem _ hmem, hid⟩

theorem findIn_map_preserve (g : UA_Node → UA_Node)
    (hg : ∀ n, (g n).nodeId = n.nodeId) (nodes : List UA_Node) (nid : UA_NodeId) :
    findIn (nodes.map g) nid = (findIn nodes nid).map g := by
  induction nodes with
  | nil => rfl
  | cons n ns ih =>
    by_cases hn : n.nodeId = nid
    · simp [findIn, hg n, hn]
    · simp [findIn, hg n, hn, ih]

theorem updateNode_eq_map (nodes : List UA_Node) (nid : UA_NodeId)
    (f : UA_Node → UA_Node) :
    updateNode nodes nid f = nodes.map (fun n => if n.nodeId = nid then f n else n) := by
  induction nodes with
  | nil => rfl
  | cons n ns ih => simp [updateNode, ih]

theorem findIn_updateNode (nodes : List UA_Node) (nid nid2 : UA_NodeId)
    (f : UA_Node → UA_Node) (hf : ∀ n, (f n).nodeId = n.nodeId) :
    findIn (updateNode nodes nid f) nid2 =
      (findIn nodes nid2).map (fun n => if n.nodeId = nid then f n else n) := by
  rw [updateNode_eq_map]
  exact findIn_map_preserve _ (fun n => by by_cases h : n.nodeId = nid <;> simp [h, hf]) nodes nid2

theorem findIn_append (xs ys : List UA_Node) (nid : UA_NodeId) :
    findIn (xs ++ ys) nid =
      match findIn xs nid with
      | some p => some p
      | none => findIn ys nid := by
  induction xs with
  | nil => simp [findIn]
  | cons n ns ih =>
    by_cases hn : n.nodeId = nid <;> simp [findIn, hn, ih]

theorem maxNumericIn_cons_ge (hd : UA_Node) (tl : List UA_Node) (nsIdx : Nat) :
    maxNumericIn tl nsIdx ≤ maxNumericIn (hd :: tl) nsIdx := by
  cases hid : hd.nodeId.identifier with
  | numeric k =>
    simp only [maxNumericIn, hid]
    split
    · exact le_max_right _ _
    · exact le_refl _
  | stringId str => simp only [maxNumericIn, hid]; exact le_refl _
  | guid g => simp only [maxNumericIn, hid]; exact le_refl _
  | byteString b => simp only [maxNumericIn, hid]; exact le_refl _

theorem le_maxNumericIn {nodes : List UA_Node} {n : UA_Node} {nsIdx k : Nat}
    (hn : n ∈ nodes) (hid : n.nodeId = ⟨nsIdx, .numeric k⟩) :
    k ≤ maxNumericIn nodes nsIdx := by
  induction nodes with
  | nil => simp at hn
  | cons hd tl ih =>
    rcases List.mem_cons.mp hn with heq | hmem
    · subst heq
      unfold maxNumericIn
      rw [hid]
      simp
    · exact le_trans (ih hmem) (maxNumericIn_cons_ge hd tl nsIdx)

theorem findIn_freshNumericId (nodes : List UA_Node) (nsIdx : Nat) :
    findIn nodes (freshNumericId nodes nsIdx) = none := by
  cases hf : findIn nodes (freshNumericId nodes nsIdx) with
  | none => rfl
  | some p =>
    obtain ⟨hmem, hid⟩ := findIn_eq_some hf
    have hk := le_maxNumericIn hmem (by rw [hid]; rfl)
    omega

theorem findIn_null_of_no_null {nodes : List UA_Node}
    (h : ∀ n ∈ nodes, n.nodeId.isNull = false) :
    findIn nodes UA_NODEID_NULL = none := by
  cases hf : findIn nodes UA_NODEID_NULL with
  | none => rfl
  | some p =>
    obtain ⟨hmem, hid⟩ := findIn_eq_some hf
    have hx := h p hmem
    rw [hid] at hx
    simp [UA_NodeId.isNull] at hx

/-! Claim theorems. -/

/-- C2: for every existing node, a write to a structurally immutable attribute
(NodeId, NodeClass, Symmetric) is rejected with NotWritable and leaves the
server (hence the node) unchanged, and a write to an unmanaged attribute
(WriteMask, UserWriteMask, AccessLevel, UserAccessLevel, UserExecutable,
Historizing) is rejected with NotSupported and leaves the server unchanged. -/
theorem C2_setNodeAttribute_immutable_unmanaged (s : UA_Server) (nid : UA_NodeId)
    (v : UA_AttributeValue) (node : UA_Node)
    (hfound : findIn s.nodes nid = some node) :
    (∀ a ∈ [UA_AttributeId.nodeId, UA_AttributeId.nodeClass, UA_AttributeId.symmetric],
      __UA_Server_setNodeAttribute s nid a v = (.badNotWritable, s)) ∧
    (∀ a ∈ [UA_AttributeId.writeMask, UA_AttributeId.userWriteMask,
            UA_AttributeId.accessLevel, UA_AttributeId.userAccessLevel,
            UA_AttributeId.userExecutable, UA_AttributeId.historizing],
      __UA_Server_setNodeAttribute s nid a v = (.badNotSupported, s)) := by
  constructor <;> intro a ha <;> fin_cases ha <;>
    simp [__UA_Server_setNodeAttribute, hfound]

/-- Witness for C2: writing NodeClass on the fixture variable node is rejected
with NotWritable and the server is unchanged. -/
theorem C2_witness :
    __UA_Server_setNodeAttribute srv0 ⟨1, .numeric 100⟩ .nodeClass
        (.boolean true) = (.badNotWritable, srv0) :=
  (C2_setNodeAttribute_immutable_unmanaged srv0 ⟨1, .numeric 100⟩ (.boolean true)
    varNode (by decide)).1 .nodeClass (by decide)

/-- C3: for every node and variant, after a successful
`UA_Server_setNodeAttribute_value` (the inline value-source transition), a
subsequent `UA_Server_getNodeAttribute_value` returns a variant structurally
equal to the one written. -/
theorem C3_setValue_then_getValue (s : UA_Server) (nid : UA_NodeId) (v : UA_Variant)
    (hset : (UA_Server_setNodeAttribute_value s nid v).1 = .good) :
    UA_Server_getNodeAttribute_value
        (UA_Server_setNodeAttribute_value s nid v).2 nid = (.good, some v) := by
  cases hfound : findIn s.nodes nid with
  | none => simp [UA_Server_setNodeAttribute_value, hfound] at hset
  | some n =>
    by_cases hcls : n.nodeClass = .Variable ∨ n.nodeClass = .VariableType
    · have hid : n.nodeId = nid := (findIn_eq_some hfound).2
      simp only [UA_Server_setNodeAttribute_value, hfound, if_pos hcls]
      simp only [UA_Server_getNodeAttribute_value]
      rw [findIn_updateNode s.nodes nid nid
            (fun m => { m with valueSource := .inline v }) (fun m => rfl), hfound]
      simp [hid, hcls]
    · simp [UA_Server_setNodeAttribute_value, hfound, if_neg hcls] at hset

/-- Witness for C3: writing Int32 7 into the fixture variable node and reading
it back returns Int32 7. -/
theorem C3_witness :
    UA_Server_getNodeAttribute_value
        (UA_Server_setNodeAttribute_value srv0 ⟨1, .numeric 100⟩ (.int32 7)).2
        ⟨1, .numeric 100⟩ = (.good, some (.int32 7)) :=
  C3_setValue_then_getValue srv0 ⟨1, .numeric 100⟩ (.int32 7) (by decide)

/-- C9: the claim states the Historizing attribute is exposed as a boolean by
the public getter; the header declares the out parameter of
`UA_Server_getNodeAttribute_historizing` as `UA_Double` — evaluating the
declared type shows it is Double, not Boolean (the spec flags this as a
bug in the source). -/
theorem C9_historizing_getter_exposes_double :
    UA_Server_getNodeAttribute_historizing_outType = UA_CTypeKind.Double ∧
    UA_Server_getNodeAttribute_historizing_outType ≠ UA_CTypeKind.Boolean := by
  decide

/-- C10: `UA_Server_setNodeAttribute_value_callback` succeeds only if the node
currently holds an inline variant value; on a data-source node or a
non-variable node the call fails and the server is unchanged. -/
theorem C10_value_callback_requires_variant (s : UA_Server) (nid : UA_NodeId)
    (cb : Nat) (node : UA_Node) (hfound : findIn s.nodes nid = some node) :
    ((UA_Server_setNodeAttribute_value_callback s nid cb).1 = .good →
      ∃ v, node.valueSource = .inline v) ∧
    (((node.nodeClass = .Variable ∨ node.nodeClass = .VariableType) ∧
        (∃ v, node.valueSource = .inline v)) →
      (UA_Server_setNodeAttribute_value_callback s nid cb).1 = .good) ∧
    (∀ d, node.valueSource = .dataSource d →
      (UA_Server_setNodeAttribute_value_callback s nid cb).1 ≠ .good ∧
      (UA_Server_setNodeAttribute_value_callback s nid cb).2 = s) ∧
    (¬ (node.nodeClass = .Variable ∨ node.nodeClass = .VariableType) →
      (UA_Server_setNodeAttribute_value_callback s nid cb).1 ≠ .good ∧
      (UA_Server_setNodeAttribute_value_callback s nid cb).2 = s) := by
  refine ⟨?_, ?_, ?_, ?_⟩
  · intro hgood
    by_cases hcls : node.nodeClass = .Variable ∨ node.nodeClass = .VariableType
    · cases hvs : node.valueSource with
      | inline v => exact ⟨v, rfl⟩
      | dataSource d =>
        simp [UA_Server_setNodeAttribute_value_callback, hfound, hcls, hvs] at hgood
    · simp [UA_Server_setNodeAttribute_value_callback, hfound, hcls] at hgood
  · rintro ⟨hcls, v, hvs⟩
    simp [UA_Server_setNodeAttribute_value_callback, hfound, hcls, hvs]
  · intro d hvs
    by_cases hcls : node.nodeClass = .Variable ∨ node.nodeClass = .VariableType
    · constructor <;> simp [UA_Server_setNodeAttribute_value_callback, hfound, hcls, hvs]
    · constructor <;> simp [UA_Server_setNodeAttribute_value_callback, hfound, hcls]
  · intro hcls
    constructor <;> simp [UA_Server_setNodeAttribute_value_callback, hfound, hcls]

/-- Witness for C10: attaching a value callback fails on the data-source
backed fixture node and leaves the server unchanged. -/
theorem C10_witness :
    (UA_Server_setNodeAttribute_value_callback srv0 ⟨1, .numeric 101⟩ 3).1 ≠ .good ∧
    (UA_Server_setNodeAttribute_value_callback srv0 ⟨1, .numeric 101⟩ 3).2 = srv0 :=
  (C10_value_callback_requires_variant srv0 ⟨1, .numeric 101⟩ 3 dsNode
    (by decide)).2.2.1 7 (by decide)

/-! Scheduler lemmas. -/

theorem mem_insertRepeated (x r : UA_RepeatedJob) (l : List UA_RepeatedJob) :
    x ∈ insertRepeated r l ↔ x = r ∨ x ∈ l := by
  induction l with
  | nil => simp [insertRepeated]
  | cons y ys ih =>
    by_cases h : r.nextFire < y.nextFire
    · simp only [insertRepeated, if_pos h, List.mem_cons]
    · simp only [insertRepeated, if_neg h, List.mem_cons, ih]
      tauto

theorem mem_foldl_insert (l : List UA_RepeatedJob) (acc : List UA_RepeatedJob)
    (x : UA_RepeatedJob) :
    x ∈ l.foldl (fun acc r => insertRepeated r acc) acc ↔ x ∈ l ∨ x ∈ acc := by
  induction l generalizing acc with
  | nil => simp
  | cons y ys ih =>
    rw [List.foldl_cons, ih, mem_insertRepeated]
    simp
    tauto

theorem insertRepeated_stable (r : UA_RepeatedJob) (l : List UA_RepeatedJob) :
    insertRepeated r l =
      l.takeWhile (fun x => decide (¬ r.nextFire < x.nextFire)) ++
        r :: l.dropWhile (fun x => decide (¬ r.nextFire < x.nextFire)) := by
  induction l with
  | nil => rfl
  | cons x xs ih =>
    by_cases h : r.nextFire < x.nextFire
    · have h2 : ¬ x.nextFire ≤ r.nextFire := Nat.not_le_of_lt h
      simp [insertRepeated, List.takeWhile_cons, List.dropWhile_cons, h, h2]
    · have h2 : x.nextFire ≤ r.nextFire := Nat.le_of_not_lt h
      simp [insertRepeated, List.takeWhile_cons, List.dropWhile_cons, h, h2, ih]

theorem filter_id_length_le_one {l : List UA_RepeatedJob}
    (h : (l.map (fun r => r.id)).Nodup) (b : Nat) :
    (l.filter (fun r => decide (r.id = b))).length ≤ 1 := by
  induction l with
  | nil => simp
  | cons hd tl ih =>
    rw [List.map_cons, List.nodup_cons] at h
    by_cases hb : hd.id = b
    · rw [List.filter_cons_of_pos (by simp [hb])]
      have hnil : tl.filter (fun r => decide (r.id = b)) = [] := by
        rw [List.filter_eq_nil_iff]
        intro a ha
        simp only [decide_eq_true_eq]
        intro hab
        apply h.1
        rw [hb, ← hab]
        exact List.mem_map_of_mem (fun r => r.id) ha
      simp [hnil]
    · rw [List.filter_cons_of_neg (by simp [hb])]
      exact ih h.2

theorem advanceFire_id (now : Nat) (r : UA_RepeatedJob) :
    (advanceFire now r).id = r.id := by
  unfold advanceFire
  split <;> rfl

theorem advanceFire_interval (now : Nat) (r : UA_RepeatedJob) :
    (advanceFire now r).interval = r.interval := by
  unfold advanceFire
  split <;> rfl

/-- C5: `UA_Server_addRepeatedJob` succeeds exactly when the interval is
strictly greater than 5 ms (interval 5 fails with IntervalTooSmall, interval 6
is accepted); on success a fresh GUID is assigned and the scheduled record
first fires at most at now() + interval. -/
theorem C5_addRepeatedJob_contract (s : UA_Server) (job : UA_Job)
    (interval now : Nat) (hwf : ∀ r ∈ s.repeated, r.id < s.guidCounter) :
    ((UA_Server_addRepeatedJob s job interval now).1 = .good ↔ 5 < interval) ∧
    (interval = 5 →
      (UA_Server_addRepeatedJob s job interval now).1 = .badIntervalTooSmall) ∧
    (interval = 6 → (UA_Server_addRepeatedJob s job interval now).1 = .good) ∧
    (5 < interval →
      ∃ g, (UA_Server_addRepeatedJob s job interval now).2.1 = some g ∧
        (∀ r ∈ s.repeated, r.id ≠ g) ∧
        (∃ q ∈ (UA_Server_addRepeatedJob s job interval now).2.2.repeated,
          q.id = g ∧ q.interval = interval ∧ q.job = job ∧
          q.nextFire ≤ now + interval)) := by
  by_cases hi : interval ≤ 5
  · have h1 : (UA_Server_addRepeatedJob s job interval now).1 = .badIntervalTooSmall := by
      simp [UA_Server_addRepeatedJob, hi]
    refine ⟨?_, fun _ => h1, ?_, ?_⟩
    · rw [h1]
      exact ⟨fun hc => absurd hc (by decide), fun h5 => absurd h5 (by omega)⟩
    · exact fun h6 => absurd h6 (by omega)
    · exact fun h5 => absurd h5 (by omega)
  · have hgood : (UA_Server_addRepeatedJob s job interval now).1 = .good := by
      simp [UA_Server_addRepeatedJob, hi]
    refine ⟨?_, ?_, fun _ => hgood, ?_⟩
    · rw [hgood]
      exact ⟨fun _ => by omega, fun _ => rfl⟩
    · exact fun h5 => absurd h5 (by omega)
    · intro _
      refine ⟨s.guidCounter, ?_, ?_, ?_⟩
      · simp [UA_Server_addRepeatedJob, hi]
      · intro r hr
        exact Nat.ne_of_lt (hwf r hr)
      · refine ⟨⟨s.guidCounter, interval, now + interval, job⟩, ?_, rfl, rfl, rfl, le_refl _⟩
        have hrep : (UA_Server_addRepeatedJob s job interval now).2.2.repeated =
            insertRepeated ⟨s.guidCounter, interval, now + interval, job⟩ s.repeated := by
          simp [UA_Server_addRepeatedJob, hi]
        rw [hrep]
        exact (mem_insertRepeated _ _ _).mpr (Or.inl rfl)

/-- Witness for C5: on the fixture schedule, interval 6 is accepted and
interval 5 is rejected with IntervalTooSmall. -/
theorem C5_witness :
    (UA_Server_addRepeatedJob srvSched (.delayedMethodCall 5) 6 100).1 = .good ∧
    (UA_Server_addRepeatedJob srvSched (.delayedMethodCall 5) 5 100).1 =
      .badIntervalTooSmall :=
  ⟨(C5_addRepeatedJob_contract srvSched (.delayedMethodCall 5) 6 100 (by decide)).2.2.1 rfl,
   (C5_addRepeatedJob_contract srvSched (.delayedMethodCall 5) 5 100 (by decide)).2.1 rfl⟩

/-- C6: fire discipline of the repeated-job scheduler.  Every due record
(nextFire ≤ now) fires exactly once per iteration and is advanced by its
interval — re-based to now() + interval only after a stall of a whole further
interval; a record never fires before its scheduled instant; the due records
fire in list order (hence records sharing an instant fire in insertion order),
and sorted insertion is stable (a record is placed after every record with an
instant not greater than its own). -/
theorem C6_fire_discipline (now : Nat) (recs : List UA_RepeatedJob)
    (huniq : (recs.map (fun r => r.id)).Nodup) :
    (∀ r ∈ recs, r.nextFire ≤ now →
      (processTimed now recs).1.count r = 1 ∧
      (∃ q ∈ (processTimed now recs).2, q.id = r.id ∧ q.interval = r.interval ∧
        q.nextFire = (if r.nextFire + r.interval ≤ now then now + r.interval
                      else r.nextFire + r.interval))) ∧
    (∀ r ∈ recs, now < r.nextFire →
      r ∉ (processTimed now recs).1 ∧ r ∈ (processTimed now recs).2) ∧
    (processTimed now recs).1 = recs.filter (fun r => decide (r.nextFire ≤ now)) ∧
    (∀ (r : UA_RepeatedJob) (l : List UA_RepeatedJob), insertRepeated r l =
      l.takeWhile (fun x => decide (¬ r.nextFire < x.nextFire)) ++
        r :: l.dropWhile (fun x => decide (¬ r.nextFire < x.nextFire))) := by
  refine ⟨?_, ?_, rfl, insertRepeated_stable⟩
  · intro r hr hdue
    constructor
    · have hc : (processTimed now recs).1 =
          recs.filter (fun x => decide (x.nextFire ≤ now)) := rfl
      rw [hc, List.count_filter (by simp [hdue])]
      exact List.count_eq_one_of_mem (huniq.of_map) hr
    · refine ⟨advanceFire now r, ?_, advanceFire_id now r, advanceFire_interval now r, ?_⟩
      · have hmem : advanceFire now r ∈
            (recs.filter (fun x => decide (x.nextFire ≤ now))).map (advanceFire now) :=
          List.mem_map_of_mem _ (List.mem_filter.mpr ⟨hr, by simp [hdue]⟩)
        exact (mem_foldl_insert _ _ _).mpr (Or.inl hmem)
      · unfold advanceFire
        split <;> simp_all
  · intro r hr hlate
    constructor
    · intro hmem
      have := (List.mem_filter.mp hmem).2
      simp at this
      omega
    · have hmem : r ∈ recs.filter (fun x => decide (¬ x.nextFire ≤ now)) :=
        List.mem_filter.mpr ⟨hr, by simp; omega⟩
      exact (mem_foldl_insert _ _ _).mpr (Or.inr hmem)

/-- Witness for C6: in the fixture schedule both records are due at instant 20
and the second inserted record fires exactly once. -/
theorem C6_witness :
    ((⟨1, 20, 20, .decodedRequest 2 2⟩ : UA_RepeatedJob) ∈ srvSched.repeated ∧
      (20 : Nat) ≤ 20) ∧
    (processTimed 20 srvSched.repeated).1.count ⟨1, 20, 20, .decodedRequest 2 2⟩ = 1 :=
  ⟨⟨by decide, by decide⟩,
   ((C6_fire_discipline 20 srvSched.repeated (by decide)).1
      ⟨1, 20, 20, .decodedRequest 2 2⟩ (by decide) (by decide)).1⟩

/-- C7: after `UA_Server_removeRepeatedJob` on a scheduled job id, the removal
is deferred to the next main-loop iteration: during that iteration the job
fires at most once more, after it the job is gone from the schedule, and it
never fires in any later iteration. -/
theorem C7_removeRepeatedJob_deferred (s : UA_Server) (jobId : Nat)
    (huniq : (s.repeated.map (fun r => r.id)).Nodup)
    (hsched : ∃ r ∈ s.repeated, r.id = jobId) (now : Nat) :
    ((mainloopIterationTimed now (UA_Server_removeRepeatedJob s jobId).2).1.filter
        (fun r => decide (r.id = jobId))).length ≤ 1 ∧
    (∀ r ∈ (mainloopIterationTimed now (UA_Server_removeRepeatedJob s jobId).2).2.repeated,
      r.id ≠ jobId) ∧
    (∀ now2 r, r ∈ (mainloopIterationTimed now2
        (mainloopIterationTimed now (UA_Server_removeRepeatedJob s jobId).2).2).1 →
      r.id ≠ jobId) := by
  have hfired : (mainloopIterationTimed now (UA_Server_removeRepeatedJob s jobId).2).1 =
      s.repeated.filter (fun x => decide (x.nextFire ≤ now)) := rfl
  have hsecond : ∀ r ∈ (mainloopIterationTimed now
      (UA_Server_removeRepeatedJob s jobId).2).2.repeated, r.id ≠ jobId := by
    intro r hmem
    have hx := (List.mem_filter.mp hmem).2
    simp only [decide_eq_true_eq] at hx
    intro hid
    exact hx (hid ▸ List.mem_append_right _ (List.mem_singleton.mpr rfl))
  refine ⟨?_, hsecond, ?_⟩
  · rw [hfired, List.filter_filter]
    calc (s.repeated.filter fun a =>
            decide (a.id = jobId) && decide (a.nextFire ≤ now)).length
        ≤ (s.repeated.filter (fun r => decide (r.id = jobId))).length := by
          apply List.Sublist.length_le
          apply List.monotone_filter_right
          intro a ha
          exact (Bool.and_elim_left ha)
      _ ≤ 1 := filter_id_length_le_one huniq jobId
  · intro now2 r hmem
    have hsub : r ∈ (mainloopIterationTimed now
        (UA_Server_removeRepeatedJob s jobId).2).2.repeated := by
      have hc : (mainloopIterationTimed now2 (mainloopIterationTimed now
          (UA_Server_removeRepeatedJob s jobId).2).2).1 =
          (mainloopIterationTimed now (UA_Server_removeRepeatedJob s jobId).2).2.repeated.filter
            (fun x => decide (x.nextFire ≤ now2)) := rfl
      rw [hc] at hmem
      exact (List.mem_filter.mp hmem).1
    exact hsecond r hsub

/-- Witness for C7: removing GUID 1 from the fixture schedule lets it fire at
most once in the iteration at instant 20 and it is gone afterwards. -/
theorem C7_witness :
    ((mainloopIterationTimed 20 (UA_Server_removeRepeatedJob srvSched 1).2).1.filter
        (fun r => decide (r.id = 1))).length ≤ 1 ∧
    (∀ r ∈ (mainloopIterationTimed 20
        (UA_Server_removeRepeatedJob srvSched 1).2).2.repeated, r.id ≠ 1) :=
  ⟨(C7_removeRepeatedJob_deferred srvSched 1 (by decide)
      ⟨⟨1, 20, 20, .decodedRequest 2 2⟩, by decide, rfl⟩ 20).1,
   (C7_removeRepeatedJob_deferred srvSched 1 (by decide)
      ⟨⟨1, 20, 20, .decodedRequest 2 2⟩, by decide, rfl⟩ 20).2.1⟩

/-- C4: after a successful `UA_Server_addReference(s, r, t, true)`, iterating
the children of `s` yields the previous records followed by exactly the new
record `(t, false, r)` (insertion order within the node); the inverse
reference is observable at `t` via an inverse iteration; and the iteration of
every other node is unchanged (stability across unrelated mutations). -/
theorem C4_addReference_roundTrip (s : UA_Server)
    (sourceId refTypeId targetId : UA_NodeId)
    (hgood : (UA_Server_addReference s sourceId refTypeId targetId true).1 = .good) :
    (∃ prev, UA_Server_forEachChildNodeCall s sourceId = some prev ∧
      UA_Server_forEachChildNodeCall
        (UA_Server_addReference s sourceId refTypeId targetId true).2 sourceId =
          some (prev ++ [(targetId, false, refTypeId)])) ∧
    (sourceId, true, refTypeId) ∈
      UA_Server_forEachInverseReference
        (UA_Server_addReference s sourceId refTypeId targetId true).2 targetId ∧
    (∀ u, u ≠ sourceId →
      UA_Server_forEachChildNodeCall
        (UA_Server_addReference s sourceId refTypeId targetId true).2 u =
        UA_Server_forEachChildNodeCall s u) := by
  cases hfound : findIn s.nodes sourceId with
  | none => simp [UA_Server_addReference, hfound] at hgood
  | some src =>
    by_cases hdup : (⟨refTypeId, targetId, true⟩ : UA_ReferenceNode) ∈ src.references
    · simp [UA_Server_addReference, hfound, hdup] at hgood
    · have hid : src.nodeId = sourceId := (findIn_eq_some hfound).2
      have hmemsrc : src ∈ s.nodes := (findIn_eq_some hfound).1
      have hstate : (UA_Server_addReference s sourceId refTypeId targetId true).2.nodes =
          updateNode s.nodes sourceId
            (fun n => { n with references :=
              n.references ++ [⟨refTypeId, targetId, true⟩] }) := by
        simp [UA_Server_addReference, hfound, hdup]
      refine ⟨?_, ?_, ?_⟩
      · refine ⟨src.references.map (fun r => (r.targetId, !r.isForward, r.referenceTypeId)),
          ?_, ?_⟩
        · simp [UA_Server_forEachChildNodeCall, hfound]
        · simp only [UA_Server_forEachChildNodeCall, hstate]
          rw [findIn_updateNode s.nodes sourceId sourceId
                (fun n => { n with references :=
                  n.references ++ [⟨refTypeId, targetId, true⟩] }) (fun n => rfl), hfound]
          simp [hid]
      · simp only [UA_Server_forEachInverseReference, hstate, updateNode_eq_map]
        rw [List.mem_flatMap]
        refine ⟨{ src with references := src.references ++ [⟨refTypeId, targetId, true⟩] },
          ?_, ?_⟩
        · exact List.mem_map.mpr ⟨src, hmemsrc, by simp [hid]⟩
        · rw [List.filterMap_append]
          apply List.mem_append_right
          simp [hid]
      · intro u hu
        simp only [UA_Server_forEachChildNodeCall, hstate]
        rw [findIn_updateNode s.nodes sourceId u
              (fun n => { n with references :=
                n.references ++ [⟨refTypeId, targetId, true⟩] }) (fun n => rfl)]
        cases hf2 : findIn s.nodes u with
        | none => rfl
        | some p =>
          have hpid : p.nodeId = u := (findIn_eq_some hf2).2
          simp [hpid, hu]

/-- Witness for C4: adding an Organizes reference from the Objects folder to
the fixture variable makes the inverse record observable at the variable. -/
theorem C4_witness :
    ((⟨0, .numeric 84⟩ : UA_NodeId), true, (⟨0, .numeric 35⟩ : UA_NodeId)) ∈
      UA_Server_forEachInverseReference
        (UA_Server_addReference srv0 ⟨0, .numeric 84⟩ ⟨0, .numeric 35⟩
          ⟨1, .numeric 100⟩ true).2 ⟨1, .numeric 100⟩ :=
  (C4_addReference_roundTrip srv0 ⟨0, .numeric 84⟩ ⟨0, .numeric 35⟩ ⟨1, .numeric 100⟩
    (by decide)).2.1

/-- C1: the `addNode` contract.  With the parent missing (in particular the
null parent id) the call fails with ParentNotFound; an invalid reference type
gives ReferenceTypeInvalid; an invalid type definition gives
TypeDefinitionInvalid; a taken requested id gives IdExists; a null or free
requested id succeeds, assigns a fresh numeric id in the requested namespace,
and creates exactly one outgoing reference parent → new node of the given
reference type, while every other node is untouched. -/
theorem C1_addNode_contract (s : UA_Server) (cls : UA_NodeClass)
    (reqId parentId refTypeId : UA_NodeId) (bn : UA_QualifiedName) (td : UA_NodeId)
    (hwf : s.wf) :
    (parentId.isNull = true →
      (__UA_Server_addNode s cls reqId parentId refTypeId bn td).1 =
        .badParentNodeIdInvalid) ∧
    (findIn s.nodes parentId = none →
      __UA_Server_addNode s cls reqId parentId refTypeId bn td =
        (.badParentNodeIdInvalid, none, s)) ∧
    ((findIn s.nodes parentId).isSome = true → validRefType s refTypeId = false →
      __UA_Server_addNode s cls reqId parentId refTypeId bn td =
        (.badReferenceTypeIdInvalid, none, s)) ∧
    ((findIn s.nodes parentId).isSome = true → validRefType s refTypeId = true →
      validTypeDef s td = false →
      __UA_Server_addNode s cls reqId parentId refTypeId bn td =
        (.badTypeDefinitionInvalid, none, s)) ∧
    ((findIn s.nodes parentId).isSome = true → validRefType s refTypeId = true →
      validTypeDef s td = true → reqId.isNull = false →
      (findIn s.nodes reqId).isSome = true →
      __UA_Server_addNode s cls reqId parentId refTypeId bn td =
        (.badNodeIdExists, none, s)) ∧
    (∀ parent, findIn s.nodes parentId = some parent → validRefType s refTypeId = true →
      validTypeDef s td = true → (reqId.isNull = true ∨ findIn s.nodes reqId = none) →
      (__UA_Server_addNode s cls reqId parentId refTypeId bn td).1 = .good ∧
      ∃ newId, (__UA_Server_addNode s cls reqId parentId refTypeId bn td).2.1 = some newId ∧
        newId.namespaceIndex = reqId.namespaceIndex ∧
        (∃ k, newId.identifier = .numeric k) ∧
        findIn s.nodes newId = none ∧
        findIn (__UA_Server_addNode s cls reqId parentId refTypeId bn td).2.2.nodes
            parentId =
          some { parent with references :=
            parent.references ++ [⟨refTypeId, newId, true⟩] } ∧
        findIn (__UA_Server_addNode s cls reqId parentId refTypeId bn td).2.2.nodes
            newId = some (mkNode newId cls bn td) ∧
        (∀ u, u ≠ parentId → u ≠ newId →
          findIn (__UA_Server_addNode s cls reqId parentId refTypeId bn td).2.2.nodes u =
            findIn s.nodes u)) := by
  refine ⟨?_, ?_, ?_, ?_, ?_, ?_⟩
  · intro hnull
    have hpn : parentId = UA_NODEID_NULL := by
      simpa [UA_NodeId.isNull] using hnull
    have hnone : findIn s.nodes parentId = none := by
      rw [hpn]
      exact findIn_null_of_no_null hwf.1
    simp [__UA_Server_addNode, hnone]
  · intro hnone
    simp [__UA_Server_addNode, hnone]
  · intro hsome hrt
    obtain ⟨parent, hp⟩ := Option.isSome_iff_exists.mp hsome
    simp [__UA_Server_addNode, hp, hrt]
  · intro hsome hrt htd
    obtain ⟨parent, hp⟩ := Option.isSome_iff_exists.mp hsome
    simp [__UA_Server_addNode, hp, hrt, htd]
  · intro hsome hrt htd hnn hex
    obtain ⟨parent, hp⟩ := Option.isSome_iff_exists.mp hsome
    simp [__UA_Server_addNode, hp, hrt, htd, hnn, hex]
  · intro parent hp hrt htd hfree
    have hpid : parent.nodeId = parentId := (findIn_eq_some hp).2
    have hguard : (!reqId.isNull && (findIn s.nodes reqId).isSome) = false := by
      rcases hfree with h | h <;> simp [h]
    have hexp : __UA_Server_addNode s cls reqId parentId refTypeId bn td =
        (.good, some (freshNumericId s.nodes reqId.namespaceIndex),
         { s with nodes := (updateNode s.nodes parentId
             (fun n => { n with references := n.references ++
               [⟨refTypeId, freshNumericId s.nodes reqId.namespaceIndex, true⟩] })
           ++ [mkNode (freshNumericId s.nodes reqId.namespaceIndex) cls bn td]) }) := by
      simp [__UA_Server_addNode, hp, hrt, htd, hguard]
    rw [hexp]
    refine ⟨rfl, freshNumericId s.nodes reqId.namespaceIndex, rfl, rfl,
      ⟨maxNumericIn s.nodes reqId.namespaceIndex + 1, rfl⟩,
      findIn_freshNumericId s.nodes reqId.namespaceIndex, ?_, ?_, ?_⟩
    · rw [findIn_append,
        findIn_updateNode s.nodes parentId parentId
          (fun n => { n with references := n.references ++
            [⟨refTypeId, freshNumericId s.nodes reqId.namespaceIndex, true⟩] })
          (fun n => rfl), hp]
      simp [hpid]
    · rw [findIn_append,
        findIn_updateNode s.nodes parentId (freshNumericId s.nodes reqId.namespaceIndex)
          (fun n => { n with references := n.references ++
            [⟨refTypeId, freshNumericId s.nodes reqId.namespaceIndex, true⟩] })
          (fun n => rfl), findIn_freshNumericId s.nodes reqId.namespaceIndex]
      simp [findIn, mkNode]
    · intro u hup hun
      rw [findIn_append,
        findIn_updateNode s.nodes parentId u
          (fun n => { n with references := n.references ++
            [⟨refTypeId, freshNumericId s.nodes reqId.namespaceIndex, true⟩] })
          (fun n => rfl)]
      cases hf2 : findIn s.nodes u with
      | none => simp [findIn, mkNode, Ne.symm hun]
      | some p =>
        have hp2 : p.nodeId = u := (findIn_eq_some hf2).2
        simp [hp2, hup]

/-- Witness for C1: adding an Object node with a null requested id under the
Objects folder of the fixture server succeeds. -/
theorem C1_witness :
    (__UA_Server_addNode srv0 .Object UA_NODEID_NULL ⟨0, .numeric 84⟩ ⟨0, .numeric 35⟩
        ⟨0, "o"⟩ UA_NODEID_NULL).1 = .good :=
  ((C1_addNode_contract srv0 .Object UA_NODEID_NULL ⟨0, .numeric 84⟩ ⟨0, .numeric 35⟩
      ⟨0, "o"⟩ UA_NODEID_NULL (by decide)).2.2.2.2.2 rootNode (by decide) (by decide)
      (by decide) (Or.inl (by decide))).1

/-! Lemmas about the external-namespace dispatch pipeline. -/

theorem dispatchSlice_length (h : UA_NodeId → UA_DataValue) (items : List UA_NodeId)
    (idxs : List Nat) (res : List (Option UA_DataValue)) :
    (dispatchSlice h items idxs res).length = res.length := by
  induction idxs generalizing res with
  | nil => rfl
  | cons i is ih =>
    cases hi : items.get? i with
    | none =>
      have hi2 : items[i]? = none := by
        rw [← List.get?_eq_getElem?]
        exact hi
      have step : dispatchSlice h items (i :: is) res = dispatchSlice h items is res := by
        simp [dispatchSlice, hi2]
      rw [step]
      exact ih res
    | some it =>
      have hi2 : items[i]? = some it := by
        rw [← List.get?_eq_getElem?]
        exact hi
      have step : dispatchSlice h items (i :: is) res =
          dispatchSlice h items is (res.set i (some (h it))) := by
        simp [dispatchSlice, hi2]
      rw [step, ih, List.length_set]

theorem mem_indicesFor {items : List UA_NodeId} {ns : Nat} {i : Nat} :
    i ∈ indicesFor items ns ↔
      ∃ it, items.get? i = some it ∧ it.namespaceIndex = ns := by
  unfold indicesFor
  rw [List.mem_filter, List.mem_range]
  constructor
  · rintro ⟨hlt, hp⟩
    cases hx : items.get? i with
    | none => rw [hx] at hp; simp at hp
    | some it =>
      rw [hx] at hp
      simp only [decide_eq_true_eq] at hp
      exact ⟨it, rfl, hp⟩
  · rintro ⟨it, hx, hns⟩
    have hlt : i < items.length := by
      rcases List.get?_eq_some.mp hx with ⟨hl, _⟩
      exact hl
    refine ⟨hlt, ?_⟩
    rw [hx]
    simp [hns]

theorem indicesFor_lt_length {items : List UA_NodeId} {ns : Nat} {i : Nat}
    (h : i ∈ indicesFor items ns) : i < items.length := by
  obtain ⟨it, hx, _⟩ := mem_indicesFor.mp h
  rcases List.get?_eq_some.mp hx with ⟨hl, _⟩
  exact hl

theorem dispatchSlice_getq (h : UA_NodeId → UA_DataValue) (items : List UA_NodeId) :
    ∀ (idxs : List Nat) (res : List (Option UA_DataValue)) (j : Nat),
      (∀ i ∈ idxs, i < items.length) → res.length = items.length →
      (dispatchSlice h items idxs res).get? j =
        if j ∈ idxs then (items.get? j).map (fun it => some (h it)) else res.get? j := by
  intro idxs
  induction idxs with
  | nil =>
    intro res j _ _
    simp [dispatchSlice]
  | cons i is ih =>
    intro res j hbound hlen
    have hi : i < items.length := hbound i (List.mem_cons_self i is)
    obtain ⟨iti, hit⟩ : ∃ it, items.get? i = some it := by
      cases hx : items.get? i with
      | none =>
        rw [List.get?_eq_none] at hx
        omega
      | some it => exact ⟨it, rfl⟩
    have hit2 : items[i]? = some iti := by
      rw [← List.get?_eq_getElem?]
      exact hit
    have step : dispatchSlice h items (i :: is) res =
        dispatchSlice h items is (res.set i (some (h iti))) := by
      simp [dispatchSlice, hit2]
    rw [step, ih (res.set i (some (h iti))) j
          (fun x hx => hbound x (List.mem_cons_of_mem i hx))
          (by rw [List.length_set]; exact hlen)]
    by_cases hj : j ∈ is
    · have hj2 : j ∈ i :: is := List.mem_cons_of_mem i hj
      rw [if_pos hj, if_pos hj2]
    · by_cases hij : i = j
      · subst hij
        have hj2 : i ∈ i :: is := List.mem_cons_self i is
        rw [if_neg hj, if_pos hj2, List.get?_set_eq, hit]
        obtain ⟨r, hr⟩ : ∃ r, res.get? i = some r := by
          cases hres : res.get? i with
          | none =>
            rw [List.get?_eq_none] at hres
            omega
          | some r => exact ⟨r, rfl⟩
        rw [hr]
        rfl
      · have hj2 : j ∉ i :: is := by
          intro hc
          rcases List.mem_cons.mp hc with hc1 | hc2
          · exact hij hc1.symm
          · exact hj hc2
        rw [if_neg hj, if_neg hj2, List.get?_set_ne _ _ hij]

theorem mergeExternal_length (ens : Nat → Option (UA_NodeId → UA_DataValue))
    (items : List UA_NodeId) :
    ∀ (nss : List Nat) (res : List (Option UA_DataValue)),
      (mergeExternal ens items nss res).length = res.length := by
  intro nss
  induction nss with
  | nil => intro res; rfl
  | cons ns rest ih =>
    intro res
    cases he : ens ns with
    | none => simp [mergeExternal, he, ih]
    | some h => simp [mergeExternal, he, ih, dispatchSlice_length]

theorem mergeExternal_getq (ens : Nat → Option (UA_NodeId → UA_DataValue))
    (items : List UA_NodeId) :
    ∀ (nss : List Nat) (res : List (Option UA_DataValue)) (j : Nat) (it : UA_NodeId),
      items.get? j = some it → res.length = items.length →
      (mergeExternal ens items nss res).get? j =
        (if it.namespaceIndex ∈ nss ∧ (ens it.namespaceIndex).isSome then
          (ens it.namespaceIndex).map (fun h => some (h it))
         else res.get? j) := by
  intro nss
  induction nss with
  | nil =>
    intro res j it _ _
    simp [mergeExternal]
  | cons ns rest ih =>
    intro res j it hj hlen
    by_cases hns : it.namespaceIndex = ns
    · subst hns
      cases he : ens it.namespaceIndex with
      | none =>
        have step : mergeExternal ens items (it.namespaceIndex :: rest) res =
            mergeExternal ens items rest res := by
          simp [mergeExternal, he]
        rw [step, ih res j it hj hlen]
        simp [he]
      | some h =>
        have step : mergeExternal ens items (it.namespaceIndex :: rest) res =
            mergeExternal ens items rest
              (dispatchSlice h items (indicesFor items it.namespaceIndex) res) := by
          simp [mergeExternal, he]
        have hlen2 : (dispatchSlice h items (indicesFor items it.namespaceIndex)
            res).length = items.length := by
          rw [dispatchSlice_length]
          exact hlen
        rw [step, ih _ j it hj hlen2]
        have hjin : j ∈ indicesFor items it.namespaceIndex :=
          mem_indicesFor.mpr ⟨it, hj, rfl⟩
        have hds : (dispatchSlice h items (indicesFor items it.namespaceIndex)
            res).get? j = (items.get? j).map (fun x => some (h x)) := by
          rw [dispatchSlice_getq h items _ res j
                (fun x hx => indicesFor_lt_length hx) hlen, if_pos hjin]
        by_cases hrest : it.namespaceIndex ∈ rest
        · rw [if_pos ⟨hrest, by simp [he]⟩,
            if_pos ⟨List.mem_cons_self _ _, by simp [he]⟩]
          rw [he]
        · rw [if_neg (by tauto), if_pos ⟨List.mem_cons_self _ _, by simp [he]⟩, hds, hj]
          rfl
    · have hcond : (it.namespaceIndex ∈ ns :: rest ∧
          (ens it.namespaceIndex).isSome) ↔
          (it.namespaceIndex ∈ rest ∧ (ens it.namespaceIndex).isSome) := by
        constructor
        · rintro ⟨hm, hs⟩
          rcases List.mem_cons.mp hm with hc | hc
          · exact absurd hc hns
          · exact ⟨hc, hs⟩
        · rintro ⟨hm, hs⟩
          exact ⟨List.mem_cons_of_mem _ hm, hs⟩
      cases he : ens ns with
      | none =>
        have step : mergeExternal ens items (ns :: rest) res =
            mergeExternal ens items rest res := by
          simp [mergeExternal, he]
        rw [step, ih res j it hj hlen]
        by_cases hrest : it.namespaceIndex ∈ rest ∧ (ens it.namespaceIndex).isSome
        · rw [if_pos hrest, if_pos (hcond.mpr hrest)]
        · rw [if_neg hrest, if_neg (fun hc => hrest (hcond.mp hc))]
      | some h =>
        have step : mergeExternal ens items (ns :: rest) res =
            mergeExternal ens items rest
              (dispatchSlice h items (indicesFor items ns) res) := by
          simp [mergeExternal, he]
        have hlen2 : (dispatchSlice h items (indicesFor items ns) res).length =
            items.length := by
          rw [dispatchSlice_length]
          exact hlen
        have hjout : j ∉ indicesFor items ns := by
          intro hc
          obtain ⟨it2, hx2, hns2⟩ := mem_indicesFor.mp hc
          rw [hj] at hx2
          cases hx2
          exact hns hns2
        have hds : (dispatchSlice h items (indicesFor items ns) res).get? j =
            res.get? j := by
          rw [dispatchSlice_getq h items _ res j
                (fun x hx => indicesFor_lt_length hx) hlen, if_neg hjout]
        rw [step, ih _ j it hj hlen2, hds]
        by_cases hrest : it.namespaceIndex ∈ rest ∧ (ens it.namespaceIndex).isSome
        · rw [if_pos hrest, if_pos (hcond.mpr hrest)]
        · rw [if_neg hrest, if_neg (fun hc => hrest (hcond.mp hc))]

theorem indicesFor_cons (it : UA_NodeId) (rest : List UA_NodeId) (ns : Nat) :
    indicesFor (it :: rest) ns =
      (if it.namespaceIndex = ns then [0] else []) ++
        (indicesFor rest ns).map Nat.succ := by
  unfold indicesFor
  rw [List.length_cons, List.range_succ_eq_map, List.filter_cons, List.filter_map]
  simp only [Function.comp_def, Nat.succ_eq_add_one, List.get?_eq_getElem?,
    List.getElem?_cons_succ, List.getElem?_cons_zero]
  by_cases h : it.namespaceIndex = ns <;> simp [h]

theorem sliceOf_eq_filter (items : List UA_NodeId) (ns : Nat) :
    sliceOf items ns = items.filter (fun it => decide (it.namespaceIndex = ns)) := by
  induction items with
  | nil => rfl
  | cons it rest ih =>
    have ih2 : (indicesFor rest ns).filterMap (fun i => rest.get? i) =
        rest.filter (fun x => decide (x.namespaceIndex = ns)) := ih
    unfold sliceOf
    rw [indicesFor_cons, List.filterMap_append, List.filterMap_map]
    have hcomp : ((fun i => (it :: rest).get? i) ∘ Nat.succ) = (fun i => rest.get? i) := by
      funext i
      simp [Function.comp, Nat.succ_eq_add_one]
    rw [hcomp, ih2]
    by_cases h : it.namespaceIndex = ns
    · rw [if_pos h, List.filter_cons_of_pos (by simp [h])]
      simp
    · rw [if_neg h, List.filter_cons_of_neg (by simp [h])]
      simp

/-- C8: the batched read over mixed namespaces.  The merged response has one
result per request item at the original position (request order preserved); an
item in an externally-bound namespace is answered by that namespace's handler,
an item in a local namespace is answered by the local store and never routed
externally; each external slice selects exactly the items of its namespace, in
strictly increasing index order. -/
theorem C8_partition_dispatch_merge (ens : Nat → Option (UA_NodeId → UA_DataValue))
    (s : UA_Server) (items : List UA_NodeId) :
    (readService ens s items).length = items.length ∧
    (∀ j it, items.get? j = some it →
      (readService ens s items).get? j = some (some (
        match ens it.namespaceIndex with
        | some h => h it
        | none => localRead s it))) ∧
    (∀ ns, sliceOf items ns =
      items.filter (fun it => decide (it.namespaceIndex = ns))) ∧
    (∀ ns, List.Pairwise (· < ·) (indicesFor items ns)) := by
  refine ⟨?_, ?_, fun ns => sliceOf_eq_filter items ns,
    fun ns => List.Pairwise.sublist (List.filter_sublist _) (List.pairwise_lt_range _)⟩
  · show (mergeExternal ens items _ _).length = _
    rw [mergeExternal_length, List.length_map]
  · intro j it hj
    have hlen : (items.map (fun x =>
        if (ens x.namespaceIndex).isSome then none
        else some (localRead s x))).length = items.length := List.length_map _ _
    have hres : (readService ens s items).get? j =
        (if it.namespaceIndex ∈ externalNamespacesOf ens items ∧
            (ens it.namespaceIndex).isSome then
          (ens it.namespaceIndex).map (fun h => some (h it))
         else (items.map (fun x =>
            if (ens x.namespaceIndex).isSome then none
            else some (localRead s x))).get? j) :=
      mergeExternal_getq ens items _ _ j it hj hlen
    cases he : ens it.namespaceIndex with
    | some h =>
      have hmem : it.namespaceIndex ∈ externalNamespacesOf ens items := by
        unfold externalNamespacesOf
        rw [List.mem_filter, List.mem_dedup]
        exact ⟨List.mem_map_of_mem _ (List.get?_mem hj), by simp [he]⟩
      rw [hres, if_pos ⟨hmem, by simp [he]⟩, he]
      rfl
    | none =>
      rw [hres, if_neg (by simp [he]), List.get?_map, hj]
      simp [he]

/-- Witness for C8: in the scenario batch [ns=0;i=2256, ns=2;i=1, ns=2;i=2,
ns=0;i=2257] with namespace 2 external, the external store receives exactly
the two ns=2 items at indices [1, 2], and position 1 of the merged response is
the handler result for ns=2;i=1. -/
theorem C8_witness :
    (readService ensMap0 srv0 items0).get? 1 =
      some (some ⟨.good, .int32 1001⟩) ∧
    indicesFor items0 2 = [1, 2] ∧
    sliceOf items0 2 = [⟨2, .numeric 1⟩, ⟨2, .numeric 2⟩] := by
  refine ⟨?_, by decide, by decide⟩
  have h := (C8_partition_dispatch_merge ensMap0 srv0 items0).2.1 1
    ⟨2, .numeric 1⟩ (by decide)
  rw [h]
  decide

end UAServer
